import Mathlib

/-!
# Verification of the to-do-list application

Shallow embedding of the two source files of the repository:

* `src/backend/server.js` — an Express HTTP service with four routes
  (`GET /tasks`, `POST /tasks`, `PUT /tasks/:id`, `DELETE /tasks/:id`)
  backed by a MongoDB collection of task documents;
* `src/frontend/src/App.js` — a React component holding a local list of
  tasks with three handlers (`handleAddTask`, `handleToggleComplete`,
  `handleDeleteTask`).

The MongoDB collection is modelled as a `List MTask`; the driver
operations used by the code (`insertOne`, `findOne`, `updateOne` with
`$set`, `deleteOne`, `find({})`) act on that list.  `findOne`,
`updateOne` and `deleteOne` affect the *first* document matching the
filter, as the driver does; since the only filters used are on `_id`
(unique in a real collection), theorems that need it carry explicit
uniqueness hypotheses.  Timestamps (`new Date()`) are modelled as `Nat`
values passed in by the caller; driver-generated `ObjectId`s are
modelled as strings passed in by the caller.
-/

namespace TodoApp

/-- A persisted task document, as created by `POST /tasks` in
`src/backend/server.js`: MongoDB adds `_id`, the handler sets `text`,
`completed` and `createdAt`, and `PUT /tasks/:id` later `$set`s
`updatedAt`. -/
structure MTask where
  _id : String
  text : String
  completed : Bool
  createdAt : Nat
  updatedAt : Option Nat
deriving Repr, DecidableEq

/-- A JSON value supplied for the `completed` field of a request body:
either a boolean or some non-boolean JSON value (the code only ever
tests `typeof completed === 'boolean'`, so non-booleans need not be
distinguished further). -/
inductive JVal where
  | bool (b : Bool)
  | nonBool
deriving Repr, DecidableEq

/-- The body of an HTTP response produced by the service. -/
inductive RespBody where
  /-- `res.json(task)` — `none` models `res.json(null)` when a
  `findOne` after a write returns nothing. -/
  | jsonTask (t : Option MTask)
  /-- `res.json(tasks)` for the list route. -/
  | jsonList (l : List MTask)
  /-- `res.json({ message: ... })`. -/
  | jsonMsg (message : String)
  /-- `res.send()` with no content. -/
  | empty
deriving Repr, DecidableEq

/-- An HTTP response: status code and body. -/
structure Resp where
  status : Nat
  body : RespBody
deriving Repr, DecidableEq

/-- `ObjectId.isValid(s)` for a string argument: a 24-character
hexadecimal string (the canonical string encoding of a 12-byte
ObjectId). -/
def isValidObjectId (s : String) : Bool :=
  s.length == 24 && s.data.all fun c =>
    c.isDigit || ('a' ≤ c && c ≤ 'f') || ('A' ≤ c && c ≤ 'F')

/-- `new ObjectId(s)`: the canonical (lower-case) form of a valid
hexadecimal ObjectId string, used for `_id` comparisons. -/
def oid (s : String) : String := ⟨s.data.map Char.toLower⟩

/-- `GET /tasks`: returns the full contents of the collection
(`find({}).toArray()`), in natural order, with status 200; the store is
not modified. -/
def getTasks (store : List MTask) : Resp × List MTask :=
  (⟨200, .jsonList store⟩, store)

/-- `POST /tasks` (`src/backend/server.js`): builds
`{text: req.body.text, completed: false, createdAt: now}`, rejects a
falsy `text` (`undefined` or `""`) with 400, otherwise `insertOne`s the
document (MongoDB assigns `genId` as `_id`), re-reads it with
`findOne({_id: insertedId})` and answers 201 with the stored document.

`btext` is `req.body.text` (`none` = absent). -/
def postTasks (store : List MTask) (now : Nat) (genId : String)
    (btext : Option String) : Resp × List MTask :=
  match btext with
  | none => (⟨400, .jsonMsg "Task text cannot be empty"⟩, store)
  | some t =>
    if t = "" then (⟨400, .jsonMsg "Task text cannot be empty"⟩, store)
    else
      let newTask : MTask :=
        { _id := genId, text := t, completed := false,
          createdAt := now, updatedAt := none }
      let store' := store ++ [newTask]
      (⟨201, .jsonTask (store'.find? fun d => d._id == genId)⟩, store')

/-- The `$set` document built by `PUT /tasks/:id` applied to a stored
task: `text` is included iff it was supplied (`typeof text !==
'undefined'`), `completed` iff it was supplied as a boolean (`typeof
completed === 'boolean'`), and `updatedAt` is always set. -/
def applySet (btext : Option String) (bcompleted : Option JVal)
    (now : Nat) (t : MTask) : MTask :=
  { t with
    text := match btext with | some s => s | none => t.text
    completed := match bcompleted with | some (.bool b) => b | _ => t.completed
    updatedAt := some now }

/-- `updateOne(filter, {$set: ...})`: replaces the first document
matching the filter. -/
def updateFirst (p : MTask → Bool) (f : MTask → MTask) :
    List MTask → List MTask
  | [] => []
  | t :: ts => if p t then f t :: ts else t :: updateFirst p f ts

/-- `PUT /tasks/:id` (`src/backend/server.js`): rejects a malformed id
with 400 before anything else; collects the supplied update fields
(`text` if defined, `completed` if boolean); rejects an empty update
document with 400; `updateOne`s the first document with the given
`_id` (404 when `matchedCount === 0`); re-reads and returns the stored
document with status 200. -/
def putTask (store : List MTask) (now : Nat) (taskId : String)
    (btext : Option String) (bcompleted : Option JVal) :
    Resp × List MTask :=
  if !(isValidObjectId taskId) then
    (⟨400, .jsonMsg "Invalid task ID format"⟩, store)
  else
    let hasText := btext.isSome
    let hasCompleted := match bcompleted with
      | some (.bool _) => true
      | _ => false
    if !hasText && !hasCompleted then
      (⟨400, .jsonMsg "No update fields provided"⟩, store)
    else
      let matched := store.any fun d => d._id == oid taskId
      let store' := updateFirst (fun d => d._id == oid taskId)
        (applySet btext bcompleted now) store
      if !matched then (⟨404, .jsonMsg "Task not found"⟩, store')
      else
        (⟨200, .jsonTask (store'.find? fun d => d._id == oid taskId)⟩,
          store')

/-- `DELETE /tasks/:id` (`src/backend/server.js`): rejects a malformed
id with 400; `deleteOne`s the first document with the given `_id`; 404
when `deletedCount === 0`, else 204 with no body. -/
def deleteTask (store : List MTask) (taskId : String) :
    Resp × List MTask :=
  if !(isValidObjectId taskId) then
    (⟨400, .jsonMsg "Invalid task ID format"⟩, store)
  else
    let deleted := store.any fun d => d._id == oid taskId
    let store' := store.eraseP fun d => d._id == oid taskId
    if !deleted then (⟨404, .jsonMsg "Task not found"⟩, store')
    else (⟨204, .empty⟩, store')

/-! ## Client UI (`src/frontend/src/App.js`) -/

/-- A task in the React component's local state:
`{ id: Date.now(), text: newTaskText, completed: false }`. -/
structure CTask where
  id : Nat
  text : String
  completed : Bool
deriving Repr, DecidableEq

/-- `handleAddTask`: a no-op when the pending input trims to the empty
string, otherwise appends a new task (fresh transient id `nowId` from
`Date.now()`, untrimmed text, `completed: false`) to a fresh list. -/
def handleAddTask (tasks : List CTask) (newTaskText : String)
    (nowId : Nat) : List CTask :=
  if newTaskText.trim = "" then tasks
  else tasks ++ [{ id := nowId, text := newTaskText, completed := false }]

/-- `handleToggleComplete`: maps over the list, flipping `completed` on
every task whose `id` matches and spreading the rest unchanged into a
new list. -/
def handleToggleComplete (tasks : List CTask) (taskId : Nat) :
    List CTask :=
  tasks.map fun t =>
    if t.id == taskId then { t with completed := !t.completed } else t

/-- `handleDeleteTask`: filters the list to the tasks whose `id`
differs, producing a new list. -/
def handleDeleteTask (tasks : List CTask) (taskId : Nat) : List CTask :=
  tasks.filter fun t => t.id != taskId

/-- A user action on the Client UI's local list. -/
inductive Action where
  | add (nowId : Nat) (text : String)
  | toggle (taskId : Nat)
  | delete (taskId : Nat)
deriving Repr, DecidableEq

/-- One action applied to the local list by the corresponding
handler. -/
def step (tasks : List CTask) : Action → List CTask
  | .add nowId text => handleAddTask tasks text nowId
  | .toggle taskId => handleToggleComplete tasks taskId
  | .delete taskId => handleDeleteTask tasks taskId

/-- A whole sequence of actions applied to the initially empty list
(`useState([])`). -/
def run (as : List Action) : List CTask :=
  as.foldl step []

/-! ## Specification-side definitions (for the refinement claim C8) -/

/-- Does this action delete the task with client id `i`? -/
def isDeleteOf (i : Nat) : Action → Bool
  | .delete j => j == i
  | _ => false

/-- Does this action toggle the task with client id `i`? -/
def isToggleOf (i : Nat) : Action → Bool
  | .toggle j => j == i
  | _ => false

/-- Transcription of the spec's sentence about the Client UI: after a
sequence of actions, the list contains exactly the tasks that were
added (with a non-blank text, since a blank add is a no-op) and not
subsequently deleted, each carrying the `completed` value given by the
parity of the toggles of its id performed after its addition. -/
def specRun : List Action → List CTask
  | [] => []
  | .add i t :: as =>
    (if t.trim = "" then []
     else if as.any (isDeleteOf i) then []
     else [{ id := i, text := t,
             completed := as.countP (isToggleOf i) % 2 == 1 }])
      ++ specRun as
  | .toggle _ :: as => specRun as
  | .delete _ :: as => specRun as

/-- The cumulative effect of a sequence of actions on one task already
present in the list: deleted iff some action deletes its id, and its
`completed` flag flipped once per toggle of its id. -/
def applyAll (as : List Action) (t : CTask) : Option CTask :=
  if as.any (isDeleteOf t.id) then none
  else some { t with completed := t.completed ^^ (as.countP (isToggleOf t.id) % 2 == 1) }

/-! ## List helper lemmas -/

theorem find?_middle {α : Type} (p : α → Bool) (pre post : List α)
    (r : α) (hpre : ∀ x ∈ pre, p x = false) (hr : p r = true) :
    (pre ++ r :: post).find? p = some r := by
  rw [List.find?_append]
  have h1 : pre.find? p = none :=
    List.find?_eq_none.mpr fun x hx => by simp [hpre x hx]
  simp [h1, List.find?_cons_of_pos _ hr]

theorem updateFirst_middle (p : MTask → Bool) (f : MTask → MTask)
    (pre post : List MTask) (r : MTask)
    (hpre : ∀ x ∈ pre, p x = false) (hr : p r = true) :
    updateFirst p f (pre ++ r :: post) = pre ++ f r :: post := by
  induction pre with
  | nil => simp [updateFirst, hr]
  | cons a tl ih =>
    have ha : p a = false := hpre a (by simp)
    simp [updateFirst, ha, ih fun x hx => hpre x (by simp [hx])]

theorem updateFirst_nomatch (p : MTask → Bool) (f : MTask → MTask)
    (l : List MTask) (h : ∀ x ∈ l, p x = false) :
    updateFirst p f l = l := by
  induction l with
  | nil => rfl
  | cons a tl ih =>
    have ha : p a = false := h a (by simp)
    simp [updateFirst, ha, ih fun x hx => h x (by simp [hx])]

theorem eraseP_middle {α : Type} (p : α → Bool) (pre post : List α)
    (r : α) (hpre : ∀ x ∈ pre, p x = false) (hr : p r = true) :
    (pre ++ r :: post).eraseP p = pre ++ post := by
  rw [List.eraseP_append_right _ fun b hb => by simp [hpre b hb]]
  simp [List.eraseP_cons, hr]

theorem eraseP_nomatch {α : Type} (p : α → Bool) (l : List α)
    (h : ∀ x ∈ l, p x = false) : l.eraseP p = l := by
  induction l with
  | nil => rfl
  | cons a tl ih =>
    have ha : p a = false := h a (by simp)
    simp [List.eraseP_cons, ha, ih fun x hx => h x (by simp [hx])]

theorem any_middle {α : Type} (p : α → Bool) (pre post : List α)
    (r : α) (hr : p r = true) : (pre ++ r :: post).any p = true := by
  simp [List.any_append, hr]

theorem filterMap_filter {α β : Type} (p : α → Bool) (f : α → Option β)
    (l : List α) :
    (l.filter p).filterMap f
      = l.filterMap fun x => if p x then f x else none := by
  induction l with
  | nil => rfl
  | cons a tl ih =>
    by_cases ha : p a = true
    · simp only [List.filter_cons, ha, if_pos, List.filterMap_cons, ih]
    · have ha' : p a = false := by simpa using ha
      simp [List.filter_cons, ha', List.filterMap_cons, ih]

/-! ## Claims -/

/-- **C1, counterexample.**  The claim says a whitespace-only `text`
is rejected with a client error and inserts nothing.  The code's check
is `if (!newTask.text)`, and the string `" "` is truthy, so a create
request with `text = " "` is accepted: it answers 201 and persists a
task whose `text` is `" "`. -/
theorem c1_whitespace_counterexample :
    (postTasks [] 0 "aaaaaaaaaaaaaaaaaaaaaaaa" (some " ")).1.status = 201
    ∧ (postTasks [] 0 "aaaaaaaaaaaaaaaaaaaaaaaa" (some " ")).2
        = [{ _id := "aaaaaaaaaaaaaaaaaaaaaaaa", text := " ",
             completed := false, createdAt := 0, updatedAt := none }] := by
  constructor <;> rfl

/-- **C1 (amended).**  A create request whose `text` is absent or the
empty string is rejected with a 400 client error and inserts nothing;
a whitespace-only but non-empty `text` is not rejected. -/
theorem c1_create_rejects_falsy_text (store : List MTask) (now : Nat)
    (genId : String) (btext : Option String)
    (h : btext = none ∨ btext = some "") :
    postTasks store now genId btext
      = (⟨400, .jsonMsg "Task text cannot be empty"⟩, store) := by
  rcases h with h | h <;> simp [h, postTasks]

theorem c1_create_rejects_falsy_text_witness :
    postTasks [] 7 "aaaaaaaaaaaaaaaaaaaaaaaa" (some "")
      = (⟨400, .jsonMsg "Task text cannot be empty"⟩, []) :=
  c1_create_rejects_falsy_text [] 7 "aaaaaaaaaaaaaaaaaaaaaaaa"
    (some "") (Or.inr rfl)

/-- **C6.**  A create request whose `text` is the empty string or
omitted gets a client-error response (400) and leaves the store
unchanged: nothing is persisted. -/
theorem c6_create_empty_rejected (store : List MTask) (now : Nat)
    (genId : String) (btext : Option String)
    (h : btext = none ∨ btext = some "") :
    (postTasks store now genId btext).1.status = 400
    ∧ (postTasks store now genId btext).2 = store := by
  rcases h with h | h <;> simp [h, postTasks]

theorem c6_create_empty_rejected_witness :
    (postTasks [] 3 "bbbbbbbbbbbbbbbbbbbbbbbb" none).1.status = 400
    ∧ (postTasks [] 3 "bbbbbbbbbbbbbbbbbbbbbbbb" none).2 = [] :=
  c6_create_empty_rejected [] 3 "bbbbbbbbbbbbbbbbbbbbbbbb" none
    (Or.inl rfl)

/-- **C2.**  A create request with a non-empty `text` and a fresh
store-generated id inserts exactly one new task — `completed = false`,
`createdAt = now` — appended to the store, answers 201 with that task
as stored (including the generated id), and a subsequent list request
returns a list containing that record. -/
theorem c2_create_inserts (store : List MTask) (now : Nat)
    (genId : String) (t : String) (ht : t ≠ "")
    (hfresh : ∀ d ∈ store, d._id ≠ genId) :
    postTasks store now genId (some t)
      = (⟨201, .jsonTask (some ⟨genId, t, false, now, none⟩)⟩,
         store ++ [⟨genId, t, false, now, none⟩])
    ∧ (getTasks (postTasks store now genId (some t)).2).1.body
        = .jsonList (store ++ [⟨genId, t, false, now, none⟩])
    ∧ (⟨genId, t, false, now, none⟩ : MTask)
        ∈ (postTasks store now genId (some t)).2 := by
  have hfind :
      ((store ++ [(⟨genId, t, false, now, none⟩ : MTask)]).find?
        fun d => d._id == genId)
      = some ⟨genId, t, false, now, none⟩ :=
    find?_middle _ store [] ⟨genId, t, false, now, none⟩
      (fun x hx => by simp [hfresh x hx]) (by simp)
  have hpost : postTasks store now genId (some t)
      = (⟨201, .jsonTask (some ⟨genId, t, false, now, none⟩)⟩,
         store ++ [⟨genId, t, false, now, none⟩]) := by
    simp [postTasks, ht, hfind]
  refine ⟨hpost, ?_, ?_⟩
  · rw [hpost]; rfl
  · rw [hpost]; simp

/-- Shared success case of `PUT /tasks/:id`: valid id, record present
(first match `r`), at least one update field supplied — answers 200
with the `$set`-updated record and rewrites exactly that record in the
store. -/
theorem putTask_found (pre post : List MTask) (r : MTask) (now : Nat)
    (taskId : String) (bt : Option String) (bcv : Option JVal)
    (hvalid : isValidObjectId taskId = true)
    (hid : r._id = oid taskId)
    (hpre : ∀ d ∈ pre, d._id ≠ oid taskId)
    (hfields : bt.isSome = true ∨ ∃ b, bcv = some (.bool b)) :
    putTask (pre ++ r :: post) now taskId bt bcv
      = (⟨200, .jsonTask (some (applySet bt bcv now r))⟩,
         pre ++ applySet bt bcv now r :: post) := by
  have hmatch : ((pre ++ r :: post).any fun d => d._id == oid taskId)
      = true := any_middle _ pre post r (by simp [hid])
  have hupd : updateFirst (fun d => d._id == oid taskId)
        (applySet bt bcv now) (pre ++ r :: post)
      = pre ++ applySet bt bcv now r :: post :=
    updateFirst_middle _ _ pre post r
      (fun x hx => by simp [hpre x hx]) (by simp [hid])
  have hfind : ((pre ++ applySet bt bcv now r :: post).find?
        fun d => d._id == oid taskId)
      = some (applySet bt bcv now r) :=
    find?_middle _ pre post _
      (fun x hx => by simp [hpre x hx]) (by simp [applySet, hid])
  rcases hfields with hbt | ⟨b, hbcv⟩
  · rcases bt with _ | s
    · simp at hbt
    · simp [putTask, hvalid, hmatch, hupd, hfind]
  · subst hbcv
    simp [putTask, hvalid, hmatch, hupd, hfind]

/-- **C3.**  On an existing record, an update changes exactly the
supplied fields among `text` and `completed` and sets `updatedAt`;
`_id`, `createdAt` and every unsupplied field keep their previous
values, and no other record of the store is touched.  (`bc` is the
supplied boolean `completed`, if any; `Option.getD` makes the frame
explicit: each field is the supplied value when present, else the old
one.) -/
theorem c3_update_frame (pre post : List MTask) (r : MTask) (now : Nat)
    (taskId : String) (bt : Option String) (bc : Option Bool)
    (hvalid : isValidObjectId taskId = true)
    (hid : r._id = oid taskId)
    (hpre : ∀ d ∈ pre, d._id ≠ oid taskId)
    (hfields : bt.isSome = true ∨ bc.isSome = true) :
    putTask (pre ++ r :: post) now taskId bt (bc.map .bool)
      = (⟨200, .jsonTask (some ⟨r._id, bt.getD r.text,
            bc.getD r.completed, r.createdAt, some now⟩)⟩,
         pre ++ ⟨r._id, bt.getD r.text, bc.getD r.completed,
            r.createdAt, some now⟩ :: post) := by
  have hfields' : bt.isSome = true ∨ ∃ b, bc.map JVal.bool = some (.bool b) := by
    rcases hfields with h | h
    · exact Or.inl h
    · rcases bc with _ | b
      · simp at h
      · exact Or.inr ⟨b, rfl⟩
  have h := putTask_found pre post r now taskId bt (bc.map .bool)
    hvalid hid hpre hfields'
  have happ : applySet bt (bc.map .bool) now r
      = ⟨r._id, bt.getD r.text, bc.getD r.completed, r.createdAt,
         some now⟩ := by
    rcases bt with _ | s <;> rcases bc with _ | b <;> rfl
  rw [happ] at h
  exact h

theorem c3_update_frame_witness :
    putTask [⟨"dddddddddddddddddddddddd", "buy milk", false, 5, none⟩]
        9 "dddddddddddddddddddddddd" none ((some true).map .bool)
      = (⟨200, .jsonTask
            (some ⟨"dddddddddddddddddddddddd", "buy milk", true, 5, some 9⟩)⟩,
         [⟨"dddddddddddddddddddddddd", "buy milk", true, 5, some 9⟩]) :=
  c3_update_frame []
    [] ⟨"dddddddddddddddddddddddd", "buy milk", false, 5, none⟩ 9
    "dddddddddddddddddddddddd" none (some true) (by decide) (by decide)
    (by simp) (Or.inr rfl)

/-- **C10.**  An update supplying `text = ""` on an existing record is
accepted (200) and persists the empty string: the update path only
tests that `text` is defined, with no non-emptiness validation. -/
theorem c10_update_accepts_empty_text (pre post : List MTask)
    (r : MTask) (now : Nat) (taskId : String)
    (hvalid : isValidObjectId taskId = true)
    (hid : r._id = oid taskId)
    (hpre : ∀ d ∈ pre, d._id ≠ oid taskId) :
    putTask (pre ++ r :: post) now taskId (some "") none
      = (⟨200, .jsonTask
            (some ⟨r._id, "", r.completed, r.createdAt, some now⟩)⟩,
         pre ++ ⟨r._id, "", r.completed, r.createdAt, some now⟩ :: post) := by
  have h := putTask_found pre post r now taskId (some "") none
    hvalid hid hpre (Or.inl rfl)
  have happ : applySet (some "") none now r
      = ⟨r._id, "", r.completed, r.createdAt, some now⟩ := rfl
  rw [happ] at h
  exact h

theorem c10_update_accepts_empty_text_witness :
    putTask [⟨"eeeeeeeeeeeeeeeeeeeeeeee", "old", true, 2, none⟩] 8
        "eeeeeeeeeeeeeeeeeeeeeeee" (some "") none
      = (⟨200, .jsonTask
            (some ⟨"eeeeeeeeeeeeeeeeeeeeeeee", "", true, 2, some 8⟩)⟩,
         [⟨"eeeeeeeeeeeeeeeeeeeeeeee", "", true, 2, some 8⟩]) :=
  c10_update_accepts_empty_text []
    [] ⟨"eeeeeeeeeeeeeeeeeeeeeeee", "old", true, 2, none⟩ 8
    "eeeeeeeeeeeeeeeeeeeeeeee" (by decide) (by decide) (by simp)

/-- **C4.**  Update error cases: a malformed id answers 400
("Invalid task ID format") with the store untouched — for every store,
so the check precedes any store access; a well-formed id with no
update field supplied answers 400 ("No update fields provided"); a
well-formed id matching no record, with at least one field supplied,
answers 404 ("Task not found"), distinct from the malformed-id 400. -/
theorem c4_update_errors (store : List MTask) (now : Nat)
    (taskId : String) (bt : Option String) (bcv : Option JVal) :
    (isValidObjectId taskId = false →
      putTask store now taskId bt bcv
        = (⟨400, .jsonMsg "Invalid task ID format"⟩, store))
    ∧ (isValidObjectId taskId = true → bt = none →
      (∀ b, bcv ≠ some (.bool b)) →
      putTask store now taskId bt bcv
        = (⟨400, .jsonMsg "No update fields provided"⟩, store))
    ∧ (isValidObjectId taskId = true →
      (bt.isSome = true ∨ ∃ b, bcv = some (.bool b)) →
      (∀ d ∈ store, d._id ≠ oid taskId) →
      putTask store now taskId bt bcv
        = (⟨404, .jsonMsg "Task not found"⟩, store)) := by
  refine ⟨fun h => by simp [putTask, h], fun hv he hb => ?_, fun hv hf hnone => ?_⟩
  · have hc : (match bcv with | some (.bool _) => true | _ => false)
        = false := by
      rcases bcv with _ | bv
      · rfl
      · rcases bv with b | _
        · exact absurd rfl (hb b)
        · rfl
    simp [putTask, hv, he, hc]
  · have hany : (store.any fun d => d._id == oid taskId) = false := by
      simp only [List.any_eq_false]
      intro d hd
      simp [hnone d hd]
    have hupd := updateFirst_nomatch (fun d => d._id == oid taskId)
      (applySet bt bcv now) store (fun x hx => by simp [hnone x hx])
    rcases hf with hbt | ⟨b, hbcv⟩
    · rcases bt with _ | s
      · simp at hbt
      · simp [putTask, hv, hany, hupd]
    · subst hbcv
      simp [putTask, hv, hany, hupd]

theorem c4_update_errors_witness :
    putTask [] 0 "zz" none none
      = (⟨400, .jsonMsg "Invalid task ID format"⟩, [])
    ∧ putTask [] 0 "ffffffffffffffffffffffff" none none
      = (⟨400, .jsonMsg "No update fields provided"⟩, [])
    ∧ putTask [] 0 "ffffffffffffffffffffffff" (some "x") none
      = (⟨404, .jsonMsg "Task not found"⟩, []) :=
  ⟨(c4_update_errors [] 0 "zz" none none).1 (by decide),
   (c4_update_errors [] 0 "ffffffffffffffffffffffff" none none).2.1
     (by decide) rfl (fun b h => by cases h),
   (c4_update_errors [] 0 "ffffffffffffffffffffffff" (some "x") none).2.2
     (by decide) (Or.inl rfl) (by simp)⟩

/-- **C9.**  A `completed` value that is present but not a boolean is
silently ignored by the update route: the request behaves exactly as
if `completed` were absent (so it proceeds when `text` is supplied),
and when the non-boolean `completed` was the only field supplied the
route answers 400 "No update fields provided". -/
theorem c9_nonbool_completed_ignored (store : List MTask) (now : Nat)
    (taskId : String) :
    (∀ bt : Option String,
      putTask store now taskId bt (some .nonBool)
        = putTask store now taskId bt none)
    ∧ (isValidObjectId taskId = true →
      putTask store now taskId none (some .nonBool)
        = (⟨400, .jsonMsg "No update fields provided"⟩, store)) := by
  constructor
  · intro bt
    rfl
  · intro hv
    simp [putTask, hv]

theorem c9_nonbool_completed_ignored_witness :
    putTask [] 4 "abcdefabcdefabcdefabcdef" (some "x") (some .nonBool)
      = putTask [] 4 "abcdefabcdefabcdefabcdef" (some "x") none
    ∧ putTask [] 4 "abcdefabcdefabcdefabcdef" none (some .nonBool)
      = (⟨400, .jsonMsg "No update fields provided"⟩, []) :=
  ⟨(c9_nonbool_completed_ignored [] 4 "abcdefabcdefabcdefabcdef").1
     (some "x"),
   (c9_nonbool_completed_ignored [] 4 "abcdefabcdefabcdefabcdef").2
     (by decide)⟩

theorem c2_create_inserts_witness :
    postTasks [] 5 "cccccccccccccccccccccccc" (some "buy milk")
      = (⟨201, .jsonTask
            (some ⟨"cccccccccccccccccccccccc", "buy milk", false, 5, none⟩)⟩,
         [⟨"cccccccccccccccccccccccc", "buy milk", false, 5, none⟩]) :=
  (c2_create_inserts [] 5 "cccccccccccccccccccccccc" "buy milk"
    (by decide) (by simp)).1

/-- **C5.**  Deleting a well-formed id that matches a record removes
exactly that record (the rest of the store is untouched) and answers
204 with an empty body; the subsequent list no longer contains a
record with that id, and a second delete of the same id answers 404. -/
theorem c5_delete_removes (pre post : List MTask) (r : MTask)
    (taskId : String)
    (hvalid : isValidObjectId taskId = true)
    (hid : r._id = oid taskId)
    (hpre : ∀ d ∈ pre, d._id ≠ oid taskId)
    (hpost : ∀ d ∈ post, d._id ≠ oid taskId) :
    deleteTask (pre ++ r :: post) taskId = (⟨204, .empty⟩, pre ++ post)
    ∧ (getTasks (pre ++ post)).1.body = .jsonList (pre ++ post)
    ∧ (∀ d ∈ pre ++ post, d._id ≠ oid taskId)
    ∧ deleteTask (pre ++ post) taskId
        = (⟨404, .jsonMsg "Task not found"⟩, pre ++ post) := by
  have hmem : ∀ d ∈ pre ++ post, d._id ≠ oid taskId := by
    intro d hd
    rcases List.mem_append.mp hd with h | h
    · exact hpre d h
    · exact hpost d h
  have hany : ((pre ++ r :: post).any fun d => d._id == oid taskId)
      = true := any_middle _ pre post r (by simp [hid])
  have her : ((pre ++ r :: post).eraseP fun d => d._id == oid taskId)
      = pre ++ post :=
    eraseP_middle _ pre post r
      (fun x hx => by simp [hpre x hx]) (by simp [hid])
  have hany2 : ((pre ++ post).any fun d => d._id == oid taskId)
      = false := by
    simp only [List.any_eq_false]
    intro d hd
    simp [hmem d hd]
  have her2 := eraseP_nomatch (fun d => d._id == oid taskId)
    (pre ++ post) (fun x hx => by simp [hmem x hx])
  exact ⟨by simp [deleteTask, hvalid, hany, her], rfl, hmem,
    by simp [deleteTask, hvalid, hany2, her2]⟩

theorem c5_delete_removes_witness :
    deleteTask [⟨"012345678901234567890123", "x", false, 1, none⟩]
        "012345678901234567890123"
      = (⟨204, .empty⟩, [])
    ∧ deleteTask ([] : List MTask) "012345678901234567890123"
      = (⟨404, .jsonMsg "Task not found"⟩, []) := by
  have h := c5_delete_removes []
    [] ⟨"012345678901234567890123", "x", false, 1, none⟩
    "012345678901234567890123" (by decide) (by decide) (by simp)
    (by simp)
  exact ⟨h.1, h.2.2.2⟩

/-- The toggling function that `handleToggleComplete` maps over the
list (named so proofs can speak about one element). -/
theorem toggle_elem_involutive (taskId : Nat) (l : List CTask) :
    handleToggleComplete (handleToggleComplete l taskId) taskId = l := by
  induction l with
  | nil => rfl
  | cons t ts ih =>
    by_cases hx : t.id == taskId
    · simp only [handleToggleComplete, List.map_cons]
      simp [hx, Bool.not_not]
      simpa [handleToggleComplete] using ih
    · simp only [handleToggleComplete, List.map_cons]
      simp [hx]
      simpa [handleToggleComplete] using ih

/-- **C7.**  Toggle-complete preserves the length of the list, flips
`completed` at exactly the positions whose task id matches (all other
positions are returned unchanged), and applied twice with the same id
returns the original list (so every `completed` value is restored);
the result is a fresh list built by `map`, the input list value being
left intact (in this pure model, the occurrence of `tasks` itself on
the right-hand sides). -/
theorem c7_toggle_flips (tasks : List CTask) (taskId : Nat) :
    (handleToggleComplete tasks taskId).length = tasks.length
    ∧ (∀ i (h : i < tasks.length)
        (h' : i < (handleToggleComplete tasks taskId).length),
        (handleToggleComplete tasks taskId).get ⟨i, h'⟩
          = if (tasks.get ⟨i, h⟩).id == taskId
            then { tasks.get ⟨i, h⟩ with completed := !(tasks.get ⟨i, h⟩).completed }
            else tasks.get ⟨i, h⟩)
    ∧ handleToggleComplete (handleToggleComplete tasks taskId) taskId
        = tasks := by
  refine ⟨by simp [handleToggleComplete], fun i h h' => ?_,
    toggle_elem_involutive taskId tasks⟩
  simp [handleToggleComplete, List.get_eq_getElem, List.getElem_map]

theorem c7_toggle_flips_witness :
    (handleToggleComplete [⟨1, "a", false⟩, ⟨2, "b", true⟩] 2).length = 2
    ∧ (handleToggleComplete [⟨1, "a", false⟩, ⟨2, "b", true⟩] 2).get
        ⟨1, by decide⟩ = ⟨2, "b", false⟩
    ∧ handleToggleComplete
        (handleToggleComplete [⟨1, "a", false⟩, ⟨2, "b", true⟩] 2) 2
      = [⟨1, "a", false⟩, ⟨2, "b", true⟩] := by
  have h := c7_toggle_flips [⟨1, "a", false⟩, ⟨2, "b", true⟩] 2
  refine ⟨h.1, ?_, h.2.2⟩
  have h2 := h.2.1 1 (by decide) (by decide)
  simpa using h2

theorem succ_parity (c : Nat) : ((c + 1) % 2 == 1) = !(c % 2 == 1) := by
  rcases Nat.mod_two_eq_zero_or_one c with h | h <;>
    simp [Nat.add_mod, h]

theorem applyAll_nil (t : CTask) : applyAll [] t = some t := by
  simp [applyAll]

theorem applyAll_add (i : Nat) (s : String) (as : List Action)
    (t : CTask) : applyAll (.add i s :: as) t = applyAll as t := by
  simp [applyAll, isDeleteOf, isToggleOf, List.any_cons, List.countP_cons]

theorem applyAll_toggle (i : Nat) (as : List Action) (t : CTask) :
    applyAll (.toggle i :: as) t
      = applyAll as
          (if t.id == i then { t with completed := !t.completed } else t) := by
  by_cases hx : t.id == i
  · have hxe : t.id = i := by simpa using hx
    simp only [applyAll, isDeleteOf, isToggleOf, List.any_cons,
      List.countP_cons, hx, if_pos]
    simp [hxe, succ_parity, Bool.xor_not, Bool.not_xor]
  · have hxe : ¬ t.id = i := by simpa using hx
    have hsym : (i == t.id) = false := by
      simpa using Ne.symm hxe
    simp [applyAll, isDeleteOf, isToggleOf, List.any_cons,
      List.countP_cons, hx, hsym]

theorem applyAll_delete (i : Nat) (as : List Action) (t : CTask) :
    applyAll (.delete i :: as) t
      = if t.id != i then applyAll as t else none := by
  by_cases hx : t.id == i
  · have hxe : t.id = i := by simpa using hx
    simp [applyAll, isDeleteOf, hxe]
  · have hxe : ¬ t.id = i := by simpa using hx
    have hsym : (i == t.id) = false := by
      simpa using Ne.symm hxe
    simp [applyAll, isDeleteOf, isToggleOf, List.any_cons,
      List.countP_cons, hx, hsym, hxe]

/-- Running the three handlers over a sequence of actions from any
starting list: each pre-existing task is carried through `applyAll`
(deleted, or toggled an even/odd number of times), and the tasks added
along the way contribute `specRun`. -/
theorem foldl_step_eq (as : List Action) : ∀ l : List CTask,
    as.foldl step l = l.filterMap (applyAll as) ++ specRun as := by
  induction as with
  | nil =>
    intro l
    have h : applyAll ([] : List Action) = some := funext applyAll_nil
    simp [specRun, h]
  | cons a as ih =>
    intro l
    rcases a with ⟨i, s⟩ | i | i
    · -- add
      have hfe : applyAll (Action.add i s :: as) = applyAll as :=
        funext (applyAll_add i s as)
      by_cases ht : s.trim = ""
      · simp only [List.foldl_cons, step, handleAddTask, ht, if_pos,
          specRun, hfe, ih l]
        simp [ht]
      · have hstep : step l (.add i s)
            = l ++ [{ id := i, text := s, completed := false }] := by
          simp [step, handleAddTask, ht]
        rw [List.foldl_cons, hstep, ih, List.filterMap_append, hfe]
        by_cases hd : as.any (isDeleteOf i)
        · simp [specRun, ht, hd, applyAll, List.append_assoc]
        · simp only [List.filterMap_cons, List.filterMap_nil]
          simp [specRun, ht, hd, applyAll, List.append_assoc,
            Bool.false_xor]
    · -- toggle
      have hfe : applyAll (Action.toggle i :: as)
          = (applyAll as) ∘
            (fun t => if t.id == i then { t with completed := !t.completed } else t) :=
        funext (applyAll_toggle i as)
      rw [List.foldl_cons, ih]
      show (step l (.toggle i)).filterMap (applyAll as) ++ specRun as
        = l.filterMap (applyAll (Action.toggle i :: as))
            ++ specRun (Action.toggle i :: as)
      rw [hfe]
      simp [step, handleToggleComplete, List.filterMap_map, specRun]
    · -- delete
      have hfe : applyAll (Action.delete i :: as)
          = fun t => if t.id != i then applyAll as t else none :=
        funext (applyAll_delete i as)
      rw [List.foldl_cons, ih]
      show (step l (.delete i)).filterMap (applyAll as) ++ specRun as
        = l.filterMap (applyAll (Action.delete i :: as))
            ++ specRun (Action.delete i :: as)
      rw [hfe]
      simp [step, handleDeleteTask, filterMap_filter, specRun]

/-- **C8.**  For every finite sequence of add/toggle/delete actions
applied by the UI handlers to the initially empty local list, the
resulting list is exactly `specRun`: the tasks added with a non-blank
text and not subsequently deleted, in order of addition, each with
`completed` equal to the parity of the toggles of its id performed
after its addition. -/
theorem c8_run_refines_spec (as : List Action) : run as = specRun as := by
  have h := foldl_step_eq as []
  simpa [run] using h

end TodoApp
